import Mathlib

/-!
Verification of the evidence-gating and grounding layer of a RAG chatbot CLI.

The development shallowly embeds the TypeScript sources:
* the query CLI (tokenizer, evidence scorer, evidence gate, citation
  formatting, context building, per-question processing step), and
* `src/core/metadata.ts` (Chroma metadata sanitization).

JavaScript strings are modelled as Lean `String`/`List Char`; JavaScript
runtime values reaching metadata bags are modelled by the inductive
`RAG.JSValue` universe (strings, numbers including non-finite ones,
booleans, null, undefined, arrays, objects, Error objects).
-/

set_option autoImplicit false

namespace RAG

/-- The set of characters matched by the JavaScript regex class `\s`
(whitespace, line terminators, NBSP, Unicode space separators, BOM). -/
def isJsSpace (c : Char) : Bool :=
  c = ' ' || c = '\t' || c = '\n' || c.val = 11 || c.val = 12 || c = '\r' ||
  c.val = 0x00a0 || c.val = 0x1680 || (0x2000 ≤ c.val && c.val ≤ 0x200a) ||
  c.val = 0x2028 || c.val = 0x2029 || c.val = 0x202f || c.val = 0x205f ||
  c.val = 0x3000 || c.val = 0xfeff

/-- One character step of `.replace(/[^a-z0-9\s]/g, ' ')`: characters outside
`[a-z0-9]` and whitespace become a space, all others are kept. -/
def jsReplaceKeep (c : Char) : Char :=
  if ('a' ≤ c && c ≤ 'z') || ('0' ≤ c && c ≤ '9') || isJsSpace c then c else ' '

/-- Worker for `String.prototype.split` on a whitespace run (`/\s+/`).
`st = some acc` means a piece is being accumulated (in reverse);
`st = none` means we are inside a separator run with the previous piece
already emitted. -/
def jsSplitAux (p : Char → Bool) (st : Option (List Char)) :
    List Char → List (List Char)
  | [] =>
    match st with
    | some acc => [acc.reverse]
    | none => [[]]
  | c :: cs =>
    match st with
    | some acc =>
      if p c then acc.reverse :: jsSplitAux p none cs
      else jsSplitAux p (some (c :: acc)) cs
    | none =>
      if p c then jsSplitAux p none cs
      else jsSplitAux p (some [c]) cs

/-- `text.split(/\s+/)` as in JavaScript: pieces between maximal runs of
separator characters, with an empty leading (trailing) piece when the text
starts (ends) with a separator, and `[""]` on empty input. -/
def jsSplit (p : Char → Bool) (l : List Char) : List (List Char) :=
  jsSplitAux p (some []) l

/-- `String.prototype.trim`: drop whitespace from both ends. -/
def trimChars (l : List Char) : List Char :=
  ((l.dropWhile isJsSpace).reverse.dropWhile isJsSpace).reverse

/-- `String.prototype.trim` on a packed string. -/
def trimString (s : String) : String :=
  String.mk (trimChars s.data)

/-- `tokenize` from the query CLI, on character lists: lowercase, replace
every character outside `[a-z0-9\s]` with a space, split on `/\s+/`, trim
each piece, and keep only tokens of length at least 3. -/
def tokenizeL (text : List Char) : List (List Char) :=
  (((jsSplit isJsSpace ((text.map Char.toLower).map jsReplaceKeep)).map
    trimChars).filter (fun t => 3 ≤ t.length))

/-- `tokenize(text: string): string[]` from the query CLI. -/
def tokenize (text : String) : List String :=
  (tokenizeL text.data).map String.mk

/-- Splitting a text into maximal whitespace-free runs ("split on whitespace
runs", as the specification phrases it): accumulator-based fields function.
`acc` holds the current in-progress field in reverse. -/
def wsFieldsAux (p : Char → Bool) (acc : List Char) :
    List Char → List (List Char)
  | [] => if acc.isEmpty then [] else [acc.reverse]
  | c :: cs =>
    if p c then
      (if acc.isEmpty then wsFieldsAux p [] cs
       else acc.reverse :: wsFieldsAux p [] cs)
    else wsFieldsAux p (c :: acc) cs

/-- The maximal non-whitespace runs of a text, in order. -/
def wsFields (p : Char → Bool) (l : List Char) : List (List Char) :=
  wsFieldsAux p [] l

/-- Modelled from the spec: the tokenizer described in words — "lowercase
the text, replace every character outside `[a-z0-9]` and whitespace with a
space, split on whitespace runs, trim each piece, and drop tokens shorter
than 3 characters" — with splitting-on-runs rendered by `wsFields`. -/
def tokenizeSpecL (text : List Char) : List (List Char) :=
  (((wsFields isJsSpace ((text.map Char.toLower).map jsReplaceKeep)).map
    trimChars).filter (fun t => 3 ≤ t.length))

/-- Spec-side tokenizer on packed strings. -/
def tokenizeSpec (text : String) : List String :=
  (tokenizeSpecL text.data).map String.mk

example : tokenize "Hello, World!" = ["hello", "world"] := by decide

example : tokenize "a bb ccc" = ["ccc"] := by decide

/-- A JavaScript number: NaN, a signed infinity, or a finite value
(finite doubles are embedded into ℚ). -/
inductive JSNum where
  | nan : JSNum
  | inf (neg : Bool) : JSNum
  | finite (q : ℚ) : JSNum
deriving DecidableEq

/-- `Number.isFinite` on the modelled numbers. -/
def JSNum.isFinite : JSNum → Bool
  | .finite _ => true
  | _ => false

mutual
/-- A JavaScript runtime value as it can appear in an untrusted metadata
bag: primitive values, `undefined`, arrays, plain objects, and Error
objects (message plus optional stack). -/
inductive JSValue where
  | vstr (s : String) : JSValue
  | vnum (n : JSNum) : JSValue
  | vbool (b : Bool) : JSValue
  | vnull : JSValue
  | vundef : JSValue
  | varr (elems : JSArr) : JSValue
  | vobj (fields : JSObj) : JSValue
  | verror (message : String) (stack : Option String) : JSValue

/-- The element list of a JavaScript array value. -/
inductive JSArr where
  | nil : JSArr
  | cons (head : JSValue) (tail : JSArr) : JSArr

/-- The own enumerable entries of a JavaScript object, in insertion order
(the order `Object.entries` reports). -/
inductive JSObj where
  | nil : JSObj
  | cons (key : String) (val : JSValue) (tail : JSObj) : JSObj
end

deriving instance DecidableEq for JSValue, JSArr, JSObj

/-- The entries of an object as a Lean list. -/
def JSObj.toList : JSObj → List (String × JSValue)
  | .nil => []
  | .cons k v t => (k, v) :: t.toList

/-- The keys of an object, in entry order. -/
def JSObj.keys (m : JSObj) : List String :=
  m.toList.map Prod.fst

/-- Property read `meta[key]`: the stored value, or `undefined` when the
key is absent. -/
def jsGet : JSObj → String → JSValue
  | .nil, _ => .vundef
  | .cons k v t, key => if k = key then v else jsGet t key

/-- `typeof v === 'number'` check. -/
def JSValue.isNumber : JSValue → Bool
  | .vnum _ => true
  | _ => false

/-- `value === undefined` check. -/
def JSValue.isUndef : JSValue → Bool
  | .vundef => true
  | _ => false

/-- `isPrimitive` from `src/core/metadata.ts`: `value === null` or
`typeof value` is string, number, or boolean. -/
def JSValue.isPrimitive : JSValue → Bool
  | .vnull => true
  | .vstr _ => true
  | .vnum _ => true
  | .vbool _ => true
  | _ => false

/-- Rendering of a JavaScript number by `String(...)` / template literals.
Integral values print their decimal digits exactly as JavaScript does;
non-integral finite values are rendered as a fraction (an embedding-level
approximation of double formatting, unused by the repository's data, which
carries integral page numbers). -/
def jsNumToString : JSNum → String
  | .nan => "NaN"
  | .inf false => "Infinity"
  | .inf true => "-Infinity"
  | .finite q => if q.den = 1 then toString q.num else
      toString q.num ++ "/" ++ toString q.den

/-- Escaping of one character inside a JSON string literal (quote,
backslash and the common control characters; other characters are kept). -/
def jsonEscapeChar (c : Char) : String :=
  if c = '"' then "\\\"" else if c = '\\' then "\\\\"
  else if c = '\n' then "\\n" else if c = '\t' then "\\t"
  else if c = '\r' then "\\r" else String.singleton c

/-- A JSON string literal for `s`. -/
def jsonQuote (s : String) : String :=
  "\"" ++ String.join (s.data.map jsonEscapeChar) ++ "\""

mutual
/-- `JSON.stringify` on the modelled values. It returns `none` exactly
where JavaScript returns the value `undefined` instead of a string
(top-level `undefined`); on every other modelled value it succeeds, since
the inductive universe has no cycles. Non-finite numbers serialize as
`null`; an Error object has no own enumerable properties and serializes
as an empty object; `undefined` entries of objects are dropped and
`undefined` array elements serialize as `null`. -/
def jsonStringify : JSValue → Option String
  | .vundef => none
  | .vnull => some "null"
  | .vbool b => some (if b then "true" else "false")
  | .vnum n => some (if n.isFinite then jsNumToString n else "null")
  | .vstr s => some (jsonQuote s)
  | .varr xs => some ("[" ++ String.intercalate "," (jsonStringifyArr xs) ++ "]")
  | .vobj kvs =>
      some ("\x7b" ++ String.intercalate "," (jsonStringifyObj kvs) ++ "\x7d")
  | .verror _ _ => some ("\x7b" ++ "\x7d")

/-- Array elements under `JSON.stringify`; elements that would be
`undefined` render as `null`. -/
def jsonStringifyArr : JSArr → List String
  | .nil => []
  | .cons v t => ((jsonStringify v).getD "null") :: jsonStringifyArr t

/-- Object entries under `JSON.stringify`; entries whose value would be
`undefined` are omitted. -/
def jsonStringifyObj : JSObj → List String
  | .nil => []
  | .cons k v t =>
    match jsonStringify v with
    | some s => (jsonQuote k ++ ":" ++ s) :: jsonStringifyObj t
    | none => jsonStringifyObj t
end

/-- `safeToString` from `src/core/metadata.ts`: strings pass through,
numbers and booleans print via `String(...)`, Error objects prefer their
stack and fall back to their message, and everything else goes through
`JSON.stringify`. On this value universe `JSON.stringify` succeeds for
every object/array (no cycles, so the `catch` fallback of the source is
unreachable); the `getD` default is only reached for the input
`undefined`, which `sanitizeForChromaMetadata` never passes. -/
def safeToString (v : JSValue) : String :=
  match v with
  | .vstr s => s
  | .vnum n => jsNumToString n
  | .vbool b => if b then "true" else "false"
  | .verror message stack => stack.getD message
  | v => (jsonStringify v).getD "undefined"

/-- `sanitizeForChromaMetadata` from `src/core/metadata.ts`: iterate the
entries in order; drop `undefined` values, keep primitives unchanged, and
stringify everything else with `safeToString`. -/
def sanitizeForChromaMetadata : JSObj → JSObj
  | .nil => .nil
  | .cons k v t =>
    if v.isUndef then sanitizeForChromaMetadata t
    else if v.isPrimitive then .cons k v (sanitizeForChromaMetadata t)
    else .cons k (.vstr (safeToString v)) (sanitizeForChromaMetadata t)

/-- Insertion-order deduplication worker: `seen` holds values already
emitted. -/
def setDedupAux {α : Type} [DecidableEq α] (seen : List α) : List α → List α
  | [] => []
  | a :: l =>
    if a ∈ seen then setDedupAux seen l
    else a :: setDedupAux (a :: seen) l

/-- `Array.from(new Set(xs))`: the elements of `xs` with duplicates
removed, keeping the first occurrence of each element, in order. -/
def setDedup {α : Type} [DecidableEq α] (l : List α) : List α :=
  setDedupAux [] l

/-- Modelled from the spec: "deduplicate labels while preserving
first-occurrence order", written as a left fold that appends each label not
yet present. Used as the independent spec-side formulation to compare with
`setDedup`. -/
def dedupFirstSpec (l : List String) : List String :=
  l.foldl (fun acc c => if c ∈ acc then acc else acc ++ [c]) []

/-- `hay.includes(needle)`: substring containment on character lists. -/
def containsSub (hay needle : List Char) : Bool :=
  match hay with
  | [] => needle.isEmpty
  | _ :: t => needle.isPrefixOf hay || containsSub t needle

/-- A retrieved LangChain `Document`: page content plus a metadata bag. -/
structure Chunk where
  pageContent : String
  metadata : JSObj
deriving DecidableEq

/-- `getString` from the query CLI: the value at `key` if it is a string,
otherwise `null`. -/
def getString (meta : JSObj) (key : String) : Option String :=
  match jsGet meta key with
  | .vstr s => some s
  | _ => none

/-- `getNumber` from the query CLI: the value at `key` if it is a number
passing `Number.isFinite`, otherwise `null`; the finite payload is
returned. -/
def getNumber (meta : JSObj) (key : String) : Option ℚ :=
  match jsGet meta key with
  | .vnum (.finite q) => some q
  | _ => none

/-- `formatCite`: `[filename p.N]` when a (finite) page number is present,
otherwise `[filename]`, with the literal `unknown` replacing a missing
filename. -/
def formatCite (meta : JSObj) : String :=
  let filename := (getString meta "filename").getD "unknown"
  match getNumber meta "page" with
  | some page => "[" ++ filename ++ " p." ++ jsNumToString (.finite page) ++ "]"
  | none => "[" ++ filename ++ "]"

/-- `extractCitations`: one citation label per retrieved document,
deduplicated in insertion order (`Array.from(new Set(cites))`). The source
reads `d.metadata ?? {}`; in this model a document always carries its
metadata bag. -/
def extractCitations (docs : List Chunk) : List String :=
  setDedup (docs.map (fun d => formatCite d.metadata))

/-- `buildContext`: each retrieved document rendered as a
`Source N [cite]` header line followed by its page content, blocks joined
by blank lines. -/
def buildContext (docs : List Chunk) : String :=
  String.intercalate "\n\n"
    (docs.enum.map (fun p =>
      "Source " ++ toString (p.1 + 1) ++ " " ++ formatCite p.2.metadata ++
        "\n" ++ p.2.pageContent))

/-- The record returned by `evidenceScore`. -/
structure EvidenceScore where
  matchedTokens : Nat
  totalTokens : Nat
  overlapRatio : ℚ
deriving DecidableEq

/-- Threshold `MIN_OVERLAP_RATIO = 0.45` from the query CLI. -/
def MIN_OVERLAP_RATIO : ℚ := 0.45

/-- Threshold `MIN_MATCHED_TOKENS = 1` from the query CLI. -/
def MIN_MATCHED_TOKENS : Nat := 1

/-- `TOP_SOURCES_FOR_SCORING = 3` from the query CLI. -/
def TOP_SOURCES_FOR_SCORING : Nat := 3

/-- `evidenceScore` from the query CLI: deduplicate the question's tokens;
on zero tokens return the all-zero score; otherwise build the haystack from
the first `TOP_SOURCES_FOR_SCORING` retrieved chunks, each truncated to its
first 1600 characters, joined by single spaces and lowercased, and count
the distinct query tokens contained in it. -/
def evidenceScore (question : String) (docs : List Chunk) : EvidenceScore :=
  let qTokens := setDedup (tokenize question)
  let totalTokens := qTokens.length
  if totalTokens = 0 then ⟨0, 0, 0⟩
  else
    let hay := (List.intercalate [' ']
      ((docs.take TOP_SOURCES_FOR_SCORING).map
        (fun d => d.pageContent.data.take 1600))).map Char.toLower
    let matchedTokens := (qTokens.filter (fun t => containsSub hay t.data)).length
    ⟨matchedTokens, totalTokens, (matchedTokens : ℚ) / (totalTokens : ℚ)⟩

/-- `hasEnoughEvidence` from the query CLI: refuse with fewer than 2
retrieved chunks, then require at least `MIN_MATCHED_TOKENS` matched tokens
and an overlap ratio of at least `MIN_OVERLAP_RATIO`. -/
def hasEnoughEvidence (question : String) (docs : List Chunk) : Bool :=
  if docs.length < 2 then false
  else
    let s := evidenceScore question docs
    if s.matchedTokens < MIN_MATCHED_TOKENS then false
    else if s.overlapRatio < MIN_OVERLAP_RATIO then false
    else true

/-- The fixed refusal text `NO_EVIDENCE_MESSAGE` from the query CLI. -/
def NO_EVIDENCE_MESSAGE : String :=
  "I could not find sufficient evidence in the provided documents (PDF/TXT) to answer your question."

/-- The observable outcome of processing one question in the CLI loop:
the answer text printed, the citation labels printed, and whether the
generation service was invoked. -/
structure StepResult where
  answer : String
  citations : List String
  generationInvoked : Bool
deriving DecidableEq

/-- The per-question step of `main` in the query CLI, with the generation
service abstracted as a function `gen` from the system and user messages to
the reply content. When the evidence gate refuses, the step prints the
fixed refusal text with no citations and `gen` is not invoked (recorded by
`generationInvoked = false`); otherwise the context, citations (capped at
5), and the two prompt messages are built exactly as in the source, and the
trimmed reply of `gen` is printed followed by the citations. -/
def processQuestion (gen : String → String → String) (question : String)
    (retrieved : List Chunk) : StepResult :=
  if hasEnoughEvidence question retrieved = false then
    { answer := NO_EVIDENCE_MESSAGE, citations := [], generationInvoked := false }
  else
    let context := buildContext retrieved
    let citations := (extractCitations retrieved).take 5
    let sys := String.intercalate " "
      ["You are a strict RAG assistant.",
       "Use only the provided sources as evidence.",
       "If the sources do not contain enough information to answer, say so clearly.",
       "Do not use outside knowledge.",
       "Do not fabricate citations."]
    let user := String.intercalate "\n"
      ["Question: " ++ question, "", "Sources:", context, "", "Output format:",
       "[Answer]",
       "(Concise, grounded strictly in the sources. Do not include a citations section.)"]
    { answer := trimString (gen sys user), citations := citations,
      generationInvoked := true }

/-! ### Lemmas about metadata sanitization -/

/-- A primitive value is not `undefined`. -/
theorem primitive_ne_undef (v : JSValue) (h : v.isPrimitive = true) :
    v ≠ .vundef := by
  cases v <;> simp_all [JSValue.isPrimitive]

/-- The per-entry action of sanitization: drop `undefined`, keep
primitives, stringify the rest. -/
def sanitizeEntry (kv : String × JSValue) : Option (String × JSValue) :=
  if kv.2.isUndef then none
  else if kv.2.isPrimitive then some kv
  else some (kv.1, .vstr (safeToString kv.2))

/-- Sanitization acts entrywise: its entry list is the `filterMap` of the
input's entry list by `sanitizeEntry`. -/
theorem toList_sanitize :
    ∀ m : JSObj, (sanitizeForChromaMetadata m).toList =
      m.toList.filterMap sanitizeEntry
  | .nil => rfl
  | .cons k v t => by
    have ih := toList_sanitize t
    by_cases hu : v.isUndef
    · simp [sanitizeForChromaMetadata, JSObj.toList, sanitizeEntry, hu, ih]
    · by_cases hp : v.isPrimitive <;>
        simp [sanitizeForChromaMetadata, JSObj.toList, sanitizeEntry, hu, hp, ih]

/-- A surviving entry was produced from some input entry whose key it
keeps, and its value is primitive. -/
theorem sanitizeEntry_characterize (kv p : String × JSValue)
    (h : sanitizeEntry kv = some p) :
    p.1 = kv.1 ∧ kv.2.isUndef = false ∧ p.2.isPrimitive = true := by
  by_cases hu : kv.2.isUndef
  · simp [sanitizeEntry, hu] at h
  · by_cases hp : kv.2.isPrimitive
    · simp [sanitizeEntry, hu, hp] at h
      exact ⟨by rw [← h], by simpa using hu, by rw [← h]; exact hp⟩
    · simp [sanitizeEntry, hu, hp] at h
      exact ⟨by rw [← h], by simpa using hu, by rw [← h]; rfl⟩

/-- Every value in the output of sanitization is primitive. -/
theorem sanitize_mem_primitive (m : JSObj) (kv : String × JSValue)
    (h : kv ∈ (sanitizeForChromaMetadata m).toList) : kv.2.isPrimitive = true := by
  rw [toList_sanitize] at h
  rcases List.mem_filterMap.mp h with ⟨kv0, _, hif⟩
  exact (sanitizeEntry_characterize kv0 kv hif).2.2

/-- Sanitization introduces no new keys. -/
theorem sanitize_keys_subset (m : JSObj) (k : String)
    (h : k ∈ (sanitizeForChromaMetadata m).keys) : k ∈ m.keys := by
  rw [JSObj.keys, toList_sanitize] at h
  rcases List.mem_map.mp h with ⟨p, hp, hpk⟩
  rcases List.mem_filterMap.mp hp with ⟨kv, hkv, hif⟩
  refine List.mem_map.mpr ⟨kv, hkv, ?_⟩
  rw [← hpk, (sanitizeEntry_characterize kv p hif).1]

/-- A key bound to `undefined` in an object with distinct keys does not
survive sanitization. -/
theorem sanitize_drops_undef_key (m : JSObj) (k : String)
    (hnd : m.keys.Nodup) (hmem : (k, JSValue.vundef) ∈ m.toList) :
    k ∉ (sanitizeForChromaMetadata m).keys := by
  intro h
  rw [JSObj.keys, toList_sanitize] at h
  rcases List.mem_map.mp h with ⟨p, hp, hpk⟩
  rcases List.mem_filterMap.mp hp with ⟨kv, hkv, hif⟩
  rcases sanitizeEntry_characterize kv p hif with ⟨hkey, hundef, _⟩
  rw [JSObj.keys] at hnd
  have hinj := List.inj_on_of_nodup_map (f := Prod.fst) hnd
  have : kv = (k, JSValue.vundef) := hinj hkv hmem (by rw [← hkey, hpk])
  rw [this] at hundef
  simp [JSValue.isUndef] at hundef

/-- Claim C3: sanitization is total on the modelled value universe and its
output is schema-clean — every value of the output is a primitive
`MetadataValue` (string, number, boolean or null), no output value is
`undefined`, and a key bound to `undefined` in the input (with the input's
keys distinct, as `Object.entries` of an object guarantees) is omitted
from the output entirely. -/
theorem claim_sanitize_outputs_primitive :
    ∀ m : JSObj,
      (∀ kv ∈ (sanitizeForChromaMetadata m).toList,
        kv.2.isPrimitive = true ∧ kv.2 ≠ JSValue.vundef)
      ∧ (∀ k : String, m.keys.Nodup → (k, JSValue.vundef) ∈ m.toList →
          k ∉ (sanitizeForChromaMetadata m).keys) := by
  intro m
  refine ⟨fun kv hm => ?_, fun k hnd hmem => sanitize_drops_undef_key m k hnd hmem⟩
  have h := sanitize_mem_primitive m kv hm
  exact ⟨h, primitive_ne_undef kv.2 h⟩

/-- The metadata bag `{a: [1], b: undefined}`, used to instantiate C3. -/
def exMetaBag : JSObj :=
  .cons "a" (.varr (.cons (.vnum (.finite 1)) .nil)) (.cons "b" .vundef .nil)

/-- Concrete instantiation of C3: sanitizing `{a: [1], b: undefined}`
yields the primitive entry `a := "[1]"` and drops the key `b`. -/
theorem claim_sanitize_outputs_primitive_witness :
    exMetaBag.keys.Nodup
    ∧ ("a", JSValue.vstr "[1]") ∈ (sanitizeForChromaMetadata exMetaBag).toList
    ∧ (JSValue.vstr "[1]").isPrimitive = true
    ∧ JSValue.vstr "[1]" ≠ JSValue.vundef
    ∧ "b" ∉ (sanitizeForChromaMetadata exMetaBag).keys := by
  refine ⟨by decide, by decide, ?_, ?_, ?_⟩
  · exact ((claim_sanitize_outputs_primitive exMetaBag).1
      ("a", JSValue.vstr "[1]") (by decide)).1
  · exact ((claim_sanitize_outputs_primitive exMetaBag).1
      ("a", JSValue.vstr "[1]") (by decide)).2
  · exact (claim_sanitize_outputs_primitive exMetaBag).2 "b" (by decide) (by decide)

/-- Sanitizing twice is the same as sanitizing once (helper recursion). -/
theorem sanitize_sanitize :
    ∀ m : JSObj, sanitizeForChromaMetadata (sanitizeForChromaMetadata m) =
      sanitizeForChromaMetadata m
  | .nil => rfl
  | .cons k v t => by
    have ih := sanitize_sanitize t
    cases v <;>
      simp [sanitizeForChromaMetadata, JSValue.isUndef, JSValue.isPrimitive, ih]

/-- Claim C4: `sanitizeForChromaMetadata` is idempotent — sanitizing
already-sanitized metadata is a no-op. -/
theorem claim_sanitize_idempotent :
    ∀ m : JSObj, sanitizeForChromaMetadata (sanitizeForChromaMetadata m) =
      sanitizeForChromaMetadata m :=
  fun m => sanitize_sanitize m

/-! ### Lemmas about citation formatting and deduplication -/

/-- The metadata bag `{filename: "a.pdf", page: 3}`. -/
def metaAPdf : JSObj :=
  .cons "filename" (.vstr "a.pdf") (.cons "page" (.vnum (.finite 3)) .nil)

/-- The metadata bag `{filename: "b.txt"}` (no page). -/
def metaBTxt : JSObj := .cons "filename" (.vstr "b.txt") .nil

/-- The metadata bag `{filename: "a.pdf", page: NaN}`. -/
def metaNaN : JSObj :=
  .cons "filename" (.vstr "a.pdf") (.cons "page" (.vnum .nan) .nil)

/-- Claim C8: the citation label is `[<filename> p.<page>]` when the
metadata holds a string filename and a (finite) page number,
`[<filename>]` when the page is absent, and the literal `unknown` stands
in for a missing filename; in particular `{filename:"a.pdf", page:3}`
gives `[a.pdf p.3]`, `{filename:"b.txt"}` gives `[b.txt]`, and an empty
bag gives `[unknown]`. -/
theorem claim_formatCite_spec :
    (∀ (meta : JSObj) (fn : String) (p : ℚ),
        getString meta "filename" = some fn → getNumber meta "page" = some p →
        formatCite meta = "[" ++ fn ++ " p." ++ jsNumToString (.finite p) ++ "]")
    ∧ (∀ (meta : JSObj) (fn : String),
        getString meta "filename" = some fn → getNumber meta "page" = none →
        formatCite meta = "[" ++ fn ++ "]")
    ∧ (∀ (meta : JSObj) (p : ℚ),
        getString meta "filename" = none → getNumber meta "page" = some p →
        formatCite meta = "[unknown p." ++ jsNumToString (.finite p) ++ "]")
    ∧ (∀ meta : JSObj,
        getString meta "filename" = none → getNumber meta "page" = none →
        formatCite meta = "[unknown]")
    ∧ formatCite metaAPdf = "[a.pdf p.3]"
    ∧ formatCite metaBTxt = "[b.txt]"
    ∧ formatCite JSObj.nil = "[unknown]" := by
  refine ⟨?_, ?_, ?_, ?_, by decide, by decide, by decide⟩
  · intro meta fn p hf hp
    simp [formatCite, hf, hp]
  · intro meta fn hf hp
    simp [formatCite, hf, hp]
  · intro meta p hf hp
    simp [formatCite, hf, hp]
  · intro meta hf hp
    simp [formatCite, hf, hp]

/-- Concrete instantiation of C8 at `{filename:"a.pdf", page:3}`. -/
theorem claim_formatCite_spec_witness :
    getString metaAPdf "filename" = some "a.pdf"
    ∧ getNumber metaAPdf "page" = some 3
    ∧ formatCite metaAPdf =
        "[" ++ "a.pdf" ++ " p." ++ jsNumToString (.finite 3) ++ "]" :=
  ⟨by decide, by decide,
    claim_formatCite_spec.1 metaAPdf "a.pdf" 3 (by decide) (by decide)⟩

/-- Claim C10: a `page` entry holding NaN, an infinity, or a non-number
value renders exactly as an absent page: `[<filename>]` with no page
segment. -/
theorem claim_formatCite_nonfinite_page :
    (∀ meta : JSObj,
        (jsGet meta "page" = .vnum .nan
          ∨ (∃ b, jsGet meta "page" = .vnum (.inf b))
          ∨ (jsGet meta "page").isNumber = false) →
        formatCite meta = "[" ++ (getString meta "filename").getD "unknown" ++ "]")
    ∧ formatCite metaNaN = "[a.pdf]" := by
  constructor
  · intro meta h
    have hnone : getNumber meta "page" = none := by
      rcases h with h | ⟨b, h⟩ | h
      · simp [getNumber, h]
      · simp [getNumber, h]
      · cases hv : jsGet meta "page" <;> simp [getNumber, hv]
        simp_all [JSValue.isNumber]
    simp [formatCite, hnone]
  · decide

/-- Concrete instantiation of C10 at `{filename:"a.pdf", page:NaN}`. -/
theorem claim_formatCite_nonfinite_page_witness :
    jsGet metaNaN "page" = JSValue.vnum JSNum.nan
    ∧ formatCite metaNaN =
        "[" ++ (getString metaNaN "filename").getD "unknown" ++ "]" :=
  ⟨by decide, claim_formatCite_nonfinite_page.1 metaNaN (Or.inl (by decide))⟩

/-- The insertion-order deduplication worker agrees with the spec-side
fold, given matching already-seen sets. -/
theorem foldl_dedup (l : List String) :
    ∀ acc seen : List String, (∀ x, x ∈ acc ↔ x ∈ seen) →
      l.foldl (fun acc c => if c ∈ acc then acc else acc ++ [c]) acc =
        acc ++ setDedupAux seen l := by
  induction l with
  | nil => intro acc seen _; simp [setDedupAux]
  | cons c l ih =>
    intro acc seen h
    by_cases hc : c ∈ acc
    · have hc' : c ∈ seen := (h c).mp hc
      simp only [List.foldl_cons, if_pos hc, setDedupAux, if_pos hc']
      exact ih acc seen h
    · have hc' : c ∉ seen := fun hs => hc ((h c).mpr hs)
      simp only [List.foldl_cons, if_neg hc, setDedupAux, if_neg hc']
      rw [ih (acc ++ [c]) (c :: seen) (by intro x; simp [h x]; tauto)]
      simp

/-- `Array.from(new Set(xs))` equals the spec-side left fold. -/
theorem setDedup_eq_dedupFirstSpec (l : List String) :
    setDedup l = dedupFirstSpec l := by
  have h := foldl_dedup l [] [] (by simp)
  simpa [dedupFirstSpec, setDedup] using h.symm

/-- Four chunks whose citation labels are `[c1]`, `[c2]`, `[c1]`, `[c3]`. -/
def docsC9 : List Chunk :=
  [⟨"", .cons "filename" (.vstr "c1") .nil⟩,
   ⟨"", .cons "filename" (.vstr "c2") .nil⟩,
   ⟨"", .cons "filename" (.vstr "c1") .nil⟩,
   ⟨"", .cons "filename" (.vstr "c3") .nil⟩]

/-- Claim C9: the displayed citation list is the per-chunk labels
deduplicated keeping first occurrences in order, truncated to at most 5
entries; labels `[c1],[c2],[c1],[c3]` yield `[c1],[c2],[c3]`. -/
theorem claim_citations_dedup_order :
    (∀ docs : List Chunk,
        (extractCitations docs).take 5 =
          (dedupFirstSpec (docs.map (fun d => formatCite d.metadata))).take 5
        ∧ ((extractCitations docs).take 5).length ≤ 5)
    ∧ (extractCitations docsC9).take 5 = ["[c1]", "[c2]", "[c3]"] := by
  refine ⟨fun docs => ⟨?_, ?_⟩, by decide⟩
  · rw [extractCitations, setDedup_eq_dedupFirstSpec]
  · exact List.length_take_le 5 (extractCitations docs)

/-! ### Lemmas about the tokenizer -/

/-- A list with an appended last element is not empty. -/
theorem isEmpty_append_singleton {A : Type} (l : List A) (a : A) :
    (l ++ [a]).isEmpty = false := by
  cases l <;> rfl

/-- Dropping the empty pieces of a JavaScript `/\s+/` split yields exactly
the maximal non-whitespace runs, for matching accumulator states. -/
theorem jsSplitAux_filter_ne_nil (p : Char → Bool) :
    ∀ (l : List Char) (st : Option (List Char)),
      (jsSplitAux p st l).filter (fun piece => !piece.isEmpty) =
        wsFieldsAux p (st.getD []) l := by
  intro l
  induction l with
  | nil =>
    intro st
    cases st with
    | none => simp [jsSplitAux, wsFieldsAux]
    | some acc =>
      cases acc with
      | nil => simp [jsSplitAux, wsFieldsAux]
      | cons a as =>
        simp [jsSplitAux, wsFieldsAux, List.filter_cons, isEmpty_append_singleton]
  | cons c cs ih =>
    intro st
    cases st with
    | none =>
      by_cases hc : p c
      · simpa [jsSplitAux, hc, wsFieldsAux] using ih none
      · simpa [jsSplitAux, hc, wsFieldsAux] using ih (some [c])
    | some acc =>
      by_cases hc : p c
      · cases acc with
        | nil =>
          simpa [jsSplitAux, hc, wsFieldsAux, List.filter_cons] using ih none
        | cons a as =>
          have h := ih (none : Option (List Char))
          simp only [Option.getD] at h
          simp [jsSplitAux, hc, wsFieldsAux, List.filter_cons,
            isEmpty_append_singleton, h]
      · simpa [jsSplitAux, hc, wsFieldsAux] using ih (some (c :: acc))

/-- Filtering for length at least 3 after trimming ignores the empty
pieces. -/
theorem filter_trim_drop_empty :
    ∀ L : List (List Char),
      ((L.filter (fun piece => !piece.isEmpty)).map trimChars).filter
          (fun t => 3 ≤ t.length) =
        (L.map trimChars).filter (fun t => 3 ≤ t.length) := by
  intro L
  induction L with
  | nil => rfl
  | cons a L ih =>
    by_cases ha : a.isEmpty
    · have ha' : a = [] := by simpa [List.isEmpty_iff] using ha
      subst ha'
      simpa [List.filter, trimChars] using ih
    · have ha' : (!a.isEmpty) = true := by simp [ha]
      simp only [List.filter, ha', List.map]
      by_cases h3 : 3 ≤ (trimChars a).length
      · simp only [List.filter, decide_eq_true h3]
        rw [ih]
      · have h3' : (decide (3 ≤ (trimChars a).length)) = false := by
          simpa using h3
        simp only [List.filter, h3']
        exact ih

/-- The source tokenizer and the spec-worded tokenizer agree on character
lists. -/
theorem tokenizeL_eq_spec (l : List Char) : tokenizeL l = tokenizeSpecL l := by
  rw [tokenizeL, tokenizeSpecL, wsFields, jsSplit]
  rw [show wsFieldsAux isJsSpace [] = wsFieldsAux isJsSpace ((some ([] : List Char)).getD []) from rfl]
  rw [← jsSplitAux_filter_ne_nil isJsSpace _ (some [])]
  rw [filter_trim_drop_empty]

/-- Claim C6: `tokenize` equals the spec description — lowercase, replace
characters outside `[a-z0-9]` and whitespace by a space, split on
whitespace runs, trim, drop tokens shorter than 3 — and on the examples,
`tokenize "Hello, World!" = ["hello","world"]` and
`tokenize "a bb ccc" = ["ccc"]`. -/
theorem claim_tokenize_spec :
    (∀ s : String, tokenize s = tokenizeSpec s)
    ∧ tokenize "Hello, World!" = ["hello", "world"]
    ∧ tokenize "a bb ccc" = ["ccc"] := by
  refine ⟨fun s => ?_, by decide, by decide⟩
  rw [tokenize, tokenizeSpec, tokenizeL_eq_spec]

/-! ### Lemmas about evidence scoring and the gate -/

/-- The overlap ratio field of a score is always the matched count over
the total count (with the `0/0 = 0` convention of ℚ in the degenerate
case). -/
theorem evidenceScore_ratio (q : String) (docs : List Chunk) :
    (evidenceScore q docs).overlapRatio =
      ((evidenceScore q docs).matchedTokens : ℚ) /
        ((evidenceScore q docs).totalTokens : ℚ) := by
  simp only [evidenceScore]
  split
  · simp
  · rfl

/-- The gate passes exactly when all three source conditions hold. -/
theorem gate_iff (q : String) (docs : List Chunk) :
    hasEnoughEvidence q docs = true ↔
      2 ≤ docs.length ∧ 1 ≤ (evidenceScore q docs).matchedTokens ∧
        (0.45 : ℚ) ≤ (evidenceScore q docs).overlapRatio := by
  simp only [hasEnoughEvidence, MIN_MATCHED_TOKENS, MIN_OVERLAP_RATIO]
  split_ifs with h1 h2 h3
  · simp only [Bool.false_eq_true, false_iff]
    rintro ⟨ha, -, -⟩
    omega
  · simp only [Bool.false_eq_true, false_iff]
    rintro ⟨-, hb, -⟩
    omega
  · simp only [Bool.false_eq_true, false_iff]
    rintro ⟨-, -, hc⟩
    exact absurd hc (not_le.mpr h3)
  · simp only [true_iff]
    exact ⟨by omega, by omega, le_of_not_lt h3⟩

/-- Claim C1: `hasEnoughEvidence` is true exactly when there are at least
2 retrieved chunks, at least 1 matched token, and an overlap ratio of at
least 0.45; it is false for fewer than 2 chunks regardless of score, and
at `totalTokens = 5` it passes with 3 matched tokens (ratio 0.6) given at
least 2 chunks but refuses with 2 matched tokens (ratio 0.4). -/
theorem claim_gate_iff :
    (∀ (q : String) (docs : List Chunk),
        hasEnoughEvidence q docs = true ↔
          2 ≤ docs.length ∧ 1 ≤ (evidenceScore q docs).matchedTokens ∧
            (0.45 : ℚ) ≤ (evidenceScore q docs).overlapRatio)
    ∧ (∀ (q : String) (docs : List Chunk), docs.length < 2 →
        hasEnoughEvidence q docs = false)
    ∧ (∀ (q : String) (docs : List Chunk), 2 ≤ docs.length →
        (evidenceScore q docs).totalTokens = 5 →
        (evidenceScore q docs).matchedTokens = 3 →
        hasEnoughEvidence q docs = true)
    ∧ (∀ (q : String) (docs : List Chunk),
        (evidenceScore q docs).totalTokens = 5 →
        (evidenceScore q docs).matchedTokens = 2 →
        hasEnoughEvidence q docs = false) := by
  refine ⟨gate_iff, ?_, ?_, ?_⟩
  · intro q docs h
    cases hE : hasEnoughEvidence q docs with
    | false => rfl
    | true =>
      rcases (gate_iff q docs).mp hE with ⟨ha, -, -⟩
      omega
  · intro q docs hlen ht hm
    refine (gate_iff q docs).mpr ⟨hlen, by omega, ?_⟩
    rw [evidenceScore_ratio, ht, hm]
    norm_num
  · intro q docs ht hm
    cases hE : hasEnoughEvidence q docs with
    | false => rfl
    | true =>
      rcases (gate_iff q docs).mp hE with ⟨-, -, hc⟩
      rw [evidenceScore_ratio, ht, hm] at hc
      norm_num at hc

/-- The end-to-end example question of the spec. -/
def qWater : String := "What is the boiling point of water"

/-- Two retrieved chunks; the first matches `boiling`, `point`, `water`. -/
def docsWater : List Chunk :=
  [⟨"water boils at 100 degrees celsius boiling point", .nil⟩, ⟨"zzz", .nil⟩]

/-- Two retrieved chunks matching only `boiling` and `point`. -/
def docsBoil : List Chunk := [⟨"boiling point", .nil⟩, ⟨"zzz", .nil⟩]

/-- Concrete instantiation of C1: the water question scores 3 of 5 tokens
against `docsWater` and the gate passes; against `docsBoil` it scores 2 of
5 and the gate refuses. -/
theorem claim_gate_iff_witness :
    2 ≤ docsWater.length
    ∧ (evidenceScore qWater docsWater).totalTokens = 5
    ∧ (evidenceScore qWater docsWater).matchedTokens = 3
    ∧ hasEnoughEvidence qWater docsWater = true
    ∧ (evidenceScore qWater docsBoil).totalTokens = 5
    ∧ (evidenceScore qWater docsBoil).matchedTokens = 2
    ∧ hasEnoughEvidence qWater docsBoil = false :=
  ⟨by decide, by decide, by decide,
    claim_gate_iff.2.2.1 qWater docsWater (by decide) (by decide) (by decide),
    by decide, by decide,
    claim_gate_iff.2.2.2 qWater docsBoil (by decide) (by decide)⟩

/-- Claim C5: a question whose tokenization is empty scores
`{matchedTokens: 0, totalTokens: 0, overlapRatio: 0}` against any chunk
sequence, and the gate always refuses it. -/
theorem claim_degenerate_question :
    ∀ (q : String) (docs : List Chunk), tokenize q = [] →
      evidenceScore q docs = ⟨0, 0, 0⟩ ∧ hasEnoughEvidence q docs = false := by
  intro q docs h
  have hscore : evidenceScore q docs = ⟨0, 0, 0⟩ := by
    simp [evidenceScore, h, setDedup, setDedupAux]
  refine ⟨hscore, ?_⟩
  simp only [hasEnoughEvidence, hscore, MIN_MATCHED_TOKENS]
  split_ifs with h1 h2 h3
  · rfl
  · rfl
  · rfl
  · omega

/-- Two plain chunks used to instantiate C5. -/
def docsPlain : List Chunk := [⟨"abc def", .nil⟩, ⟨"ghi", .nil⟩]

/-- Concrete instantiation of C5 at the punctuation-only question `?!`. -/
theorem claim_degenerate_question_witness :
    tokenize "?!" = []
    ∧ evidenceScore "?!" docsPlain = ⟨0, 0, 0⟩
    ∧ hasEnoughEvidence "?!" docsPlain = false :=
  ⟨by decide, (claim_degenerate_question "?!" docsPlain (by decide)).1,
    (claim_degenerate_question "?!" docsPlain (by decide)).2⟩

/-- The score depends on the retrieved chunks only through the first
`TOP_SOURCES_FOR_SCORING` chunks' first 1600 content characters. -/
theorem evidenceScore_congr (q : String) (docs docs2 : List Chunk)
    (h : (docs.take TOP_SOURCES_FOR_SCORING).map
          (fun d => d.pageContent.data.take 1600) =
        (docs2.take TOP_SOURCES_FOR_SCORING).map
          (fun d => d.pageContent.data.take 1600)) :
    evidenceScore q docs = evidenceScore q docs2 := by
  simp only [evidenceScore]
  rw [h]

/-- Pointwise equal images give equal maps along a `Forall₂` relation. -/
theorem forall₂_map_eq {A B : Type} (f : A → B) :
    ∀ {l l2 : List A}, List.Forall₂ (fun d d2 => f d = f d2) l l2 →
      l.map f = l2.map f := by
  intro l l2 h
  induction h with
  | nil => rfl
  | cons h1 _ ih => simp only [List.map, h1, ih]

/-- Claim C7: the evidence score only looks at the first 3 chunks, and
within each of them only at the first 1600 characters of content:
`evidenceScore q docs = evidenceScore q (docs.take 3)`, and chunk lists
agreeing pairwise on their first 1600 content characters score
identically. -/
theorem claim_score_locality :
    (∀ (q : String) (docs : List Chunk),
        evidenceScore q docs = evidenceScore q (docs.take 3))
    ∧ (∀ (q : String) (docs docs2 : List Chunk),
        List.Forall₂
          (fun d d2 => d.pageContent.data.take 1600 =
            d2.pageContent.data.take 1600) docs docs2 →
        evidenceScore q docs = evidenceScore q docs2) := by
  constructor
  · intro q docs
    apply evidenceScore_congr
    simp [TOP_SOURCES_FOR_SCORING, List.take_take]
  · intro q docs docs2 h
    apply evidenceScore_congr
    exact forall₂_map_eq _ (List.forall₂_take TOP_SOURCES_FOR_SCORING h)

/-- A chunk of 1601 characters ending in `b`. -/
def chunkLongA : Chunk := ⟨String.mk (List.replicate 1600 'a' ++ ['b']), .nil⟩

/-- A chunk agreeing with `chunkLongA` on the first 1600 characters but
ending in `c`. -/
def chunkLongB : Chunk := ⟨String.mk (List.replicate 1600 'a' ++ ['c']), .nil⟩

/-- Concrete instantiation of C7: editing a chunk's content beyond
character 1600 leaves the score unchanged. -/
theorem claim_score_locality_witness :
    List.Forall₂
      (fun d d2 => d.pageContent.data.take 1600 =
        d2.pageContent.data.take 1600) [chunkLongA] [chunkLongB]
    ∧ evidenceScore "aaa" [chunkLongA] = evidenceScore "aaa" [chunkLongB] := by
  have h1600 : chunkLongA.pageContent.data.take 1600 =
      chunkLongB.pageContent.data.take 1600 := by
    show (List.replicate 1600 'a' ++ ['b']).take 1600 =
      (List.replicate 1600 'a' ++ ['c']).take 1600
    have hlen : (1600 : Nat) ≤ (List.replicate 1600 'a').length := by
      rw [List.length_replicate]
    rw [List.take_append_of_le_length hlen,
      List.take_append_of_le_length hlen]
  have hf : List.Forall₂
      (fun (d d2 : Chunk) => d.pageContent.data.take 1600 =
        d2.pageContent.data.take 1600) [chunkLongA] [chunkLongB] :=
    List.Forall₂.cons h1600 List.Forall₂.nil
  exact ⟨hf, claim_score_locality.2 "aaa" [chunkLongA] [chunkLongB] hf⟩

/-- Claim C2: whenever the evidence gate refuses a question, the
per-question step never invokes the generation service and outputs exactly
the fixed refusal message with no citations. -/
theorem claim_refusal_no_generation :
    ∀ (gen : String → String → String) (question : String)
      (retrieved : List Chunk),
      hasEnoughEvidence question retrieved = false →
      processQuestion gen question retrieved =
        { answer := NO_EVIDENCE_MESSAGE, citations := [],
          generationInvoked := false } := by
  intro gen question retrieved h
  rw [processQuestion, if_pos h]

/-- Concrete instantiation of C2 at an empty retrieval (the gate refuses
on the chunk-count floor) with an arbitrary generation stub. -/
theorem claim_refusal_no_generation_witness :
    hasEnoughEvidence "" [] = false
    ∧ processQuestion (fun _ _ => "ignored") "" [] =
        { answer := NO_EVIDENCE_MESSAGE, citations := [],
          generationInvoked := false } :=
  ⟨by decide, claim_refusal_no_generation (fun _ _ => "ignored") "" [] (by decide)⟩

end RAG
